import Mathlib

/-!
Verification of the `node-vpk` VPK archive reader.

The development shallowly embeds the two source modules:

* `BinaryParser` (src/unnamed/part_000): a byte-cursor reader over an
  immutable buffer.  Buffers are `List Nat` (each element a byte value),
  the cursor is a natural number (every assignment in the source is
  non-negative: the only arithmetic that could go below zero is guarded
  in `seek`).  Operations that mutate the cursor before a read can throw
  return the pair of the thrown-or-returned value and the mutated state,
  because in JavaScript the mutation survives the exception.
* `VPKFile` (src/src/VPKFile.ts): header and tree parsing (`fromFile`,
  taking the already-loaded directory-file bytes), extraction
  (`readFile`) and handle teardown (`closeSubArchives`).  Filesystem
  effects are modelled by a `World` carrying the contents of the
  external archives (keyed by archive index), a fresh-fd counter and the
  chronological list of successful opens; `crc32` is the standard
  CRC-32 (ISO-HDLC) computed by the `crc` dependency.
-/

namespace NodeVpk

/-- Error taxonomy of the embedded code: cursor violations, header and
tree violations of `fromFile`, and the extraction failures of
`readFile` / `closeSubArchives`. -/
inductive Err where
  | outOfBounds
  | insufficientBytes
  | invalidOffset
  | badSignature
  | unsupportedVersion
  | invalidOtherMD5
  | badEntryTerminator
  | fuelExhausted
  | fileNotFound
  | openFailed
  | shortRead
  | validationFailed
  | closeFailed
deriving DecidableEq, Repr

/-- Byte of a buffer at an index (0 past the end, matching the uses
below where out-of-range access never contributes to a result). -/
def byteAt (data : List Nat) (i : Nat) : Nat := data.getD i 0

/-- Little-endian u32 value assembled from the four bytes at `o`. -/
def u32At (data : List Nat) (o : Nat) : Nat :=
  byteAt data o + byteAt data (o + 1) * 256 + byteAt data (o + 2) * 65536 +
    byteAt data (o + 3) * 16777216

/-- Little-endian u16 value assembled from the two bytes at `o`. -/
def u16At (data : List Nat) (o : Nat) : Nat :=
  byteAt data o + byteAt data (o + 1) * 256

/-- Model of `Buffer.prototype.readUInt32LE(offset)`: the value, or a
range error when the four bytes do not fit in the buffer. -/
def bufReadU32LE (data : List Nat) (offset : Nat) : Except Err Nat :=
  if offset + 4 ≤ data.length then .ok (u32At data offset) else .error .outOfBounds

/-- Model of `Buffer.prototype.readUInt16LE(offset)`. -/
def bufReadU16LE (data : List Nat) (offset : Nat) : Except Err Nat :=
  if offset + 2 ≤ data.length then .ok (u16At data offset) else .error .outOfBounds

/-- Seek modes of `BinaryParser.seek`. -/
inductive SeekMode where
  | absolute
  | relative
deriving DecidableEq, Repr

/-- State of a `BinaryParser`: the borrowed buffer and the cursor. -/
structure BinaryParser where
  data : List Nat
  cursor : Nat
deriving DecidableEq, Repr

/-- Length of the run of consecutive non-zero bytes at the head of a
list: the number of iterations of the `while(end < length && data[end])`
scan of `BinaryParser.readString`. -/
def scanCount : List Nat → Nat
  | [] => 0
  | b :: rest => if b ≠ 0 then scanCount rest + 1 else 0

/-- Node's `'ascii'` decoding keeps the low seven bits of every byte. -/
def asciiOf (l : List Nat) : List Nat := l.map (fun b => b % 128)

/-- Cursor-advancing `readUInt32LE()`: the source saves the cursor,
advances it by 4 and only then performs the (possibly throwing) buffer
read, so the mutated state is returned even on failure. -/
def BinaryParser.readUInt32LE (p : BinaryParser) : Except Err Nat × BinaryParser :=
  (bufReadU32LE p.data p.cursor, { p with cursor := p.cursor + 4 })

/-- Cursor-advancing `readUInt16LE()`. -/
def BinaryParser.readUInt16LE (p : BinaryParser) : Except Err Nat × BinaryParser :=
  (bufReadU16LE p.data p.cursor, { p with cursor := p.cursor + 2 })

/-- Cursor-advancing `readString()`: scan to the first zero byte or the
buffer end, return the scanned span decoded as ASCII, and set the cursor
to `end + !data[end]` — the addend is 1 exactly when the byte at the
stop position is falsy (zero or, past the end, `undefined`). -/
def BinaryParser.readString (p : BinaryParser) : List Nat × BinaryParser :=
  let e := p.cursor + scanCount (p.data.drop p.cursor)
  let adv := if e < p.data.length ∧ byteAt p.data e ≠ 0 then 0 else 1
  (asciiOf ((p.data.drop p.cursor).take (scanCount (p.data.drop p.cursor))),
    { p with cursor := e + adv })

/-- Model of `readBytes(bytes)`: the assertion runs before the cursor
moves, so a failing call leaves the state unchanged. -/
def BinaryParser.readBytes (p : BinaryParser) (bytes : Nat) :
    Except Err (List Nat) × BinaryParser :=
  if p.cursor + bytes ≤ p.data.length then
    (.ok ((p.data.drop p.cursor).take bytes), { p with cursor := p.cursor + bytes })
  else (.error .insufficientBytes, p)

/-- Model of `seek(offset, mode)` for a supplied numeric offset: the
resulting position must satisfy `0 < pos ≤ length`, and the new cursor
is returned; a failing call leaves the state unchanged. -/
def BinaryParser.seek (p : BinaryParser) (offset : Int) (mode : SeekMode) :
    Except Err Nat × BinaryParser :=
  match mode with
  | .absolute =>
      if 0 < offset ∧ offset ≤ (p.data.length : Int) then
        (.ok offset.toNat, { p with cursor := offset.toNat })
      else (.error .invalidOffset, p)
  | .relative =>
      let res : Int := (p.cursor : Int) + offset
      if 0 < res ∧ res ≤ (p.data.length : Int) then
        (.ok res.toNat, { p with cursor := res.toNat })
      else (.error .invalidOffset, p)

/-- Model of `reset()`. -/
def BinaryParser.reset (p : BinaryParser) : BinaryParser := { p with cursor := 0 }

/-- Sequencing helper for the parser operations that return a value
paired with the mutated state: on failure the error propagates and the
partially mutated parser is discarded, exactly as a thrown assertion
aborts `fromFile` as a whole. -/
def step {α β : Type} (r : Except Err α × BinaryParser)
    (k : α → BinaryParser → Except Err β) : Except Err β :=
  match r with
  | (.ok a, p) => k a p
  | (.error e, _) => .error e

/-- One entry of the directory tree, mirroring `VPKEntryMeta`.  Strings
are byte lists (ASCII-decoded); `path` is `folder ++ "/" ++ fileName ++
"." ++ extension`. -/
structure VPKEntryMeta where
  extension : List Nat
  folder : List Nat
  fileName : List Nat
  path : List Nat
  CRC : Nat
  preloadBytes : Nat
  preload : Option (List Nat)
  archiveIndex : Nat
  entryOffset : Nat
  entryLength : Nat
deriving DecidableEq, Repr

/-- Association lists standing for JavaScript `Map`s. -/
abbrev Entries := List (List Nat × VPKEntryMeta)

/-- Model of `Map.prototype.set`: replace in place when the key is
present, append otherwise. -/
def mapSet {κ ν : Type} [DecidableEq κ] (m : List (κ × ν)) (k : κ) (v : ν) :
    List (κ × ν) :=
  if m.any (fun kv => kv.1 = k) then
    m.map (fun kv => if kv.1 = k then (k, v) else kv)
  else m ++ [(k, v)]

/-- Model of `Map.prototype.get`. -/
def mapGet {κ ν : Type} [DecidableEq κ] (m : List (κ × ν)) (k : κ) : Option ν :=
  (m.find? (fun kv => kv.1 = k)).map (fun kv => kv.2)

/-- The `VPKFile` object after `fromFile`: version, entry table, the
residual data (`data.subarray(dataOffset)`), the four v2 section sizes
when present, and the fd cache. -/
structure VPKFile where
  version : Nat
  entries : Entries
  data : List Nat
  sections : Option (Nat × Nat × Nat × Nat)
  fdCache : List (Nat × Nat)
deriving DecidableEq, Repr

/-- Body of the innermost tree loop of `fromFile` for one non-empty
`fileName`: read `crc` (u32), `preloadBytes` (u16), `archiveIndex`
(u16), `entryOffset` (u32), `entryLength` (u32); assert the u16
terminator equals `0xffff`; then, when `preloadBytes` is non-zero, read
that many raw preload bytes. -/
def readEntry (ext folder fn : List Nat) (p : BinaryParser) :
    Except Err (VPKEntryMeta × BinaryParser) :=
  step p.readUInt32LE fun crc p =>
  step p.readUInt16LE fun preloadBytes p =>
  step p.readUInt16LE fun archiveIndex p =>
  step p.readUInt32LE fun entryOffset p =>
  step p.readUInt32LE fun entryLength p =>
  step p.readUInt16LE fun term p =>
  if term = 0xffff then
    if preloadBytes ≠ 0 then
      step (p.readBytes preloadBytes) fun pre p =>
        .ok ({ extension := ext, folder := folder, fileName := fn,
               path := folder ++ [47] ++ fn ++ [46] ++ ext,
               CRC := crc, preloadBytes := preloadBytes, preload := some pre,
               archiveIndex := archiveIndex, entryOffset := entryOffset,
               entryLength := entryLength }, p)
    else
      .ok ({ extension := ext, folder := folder, fileName := fn,
             path := folder ++ [47] ++ fn ++ [46] ++ ext,
             CRC := crc, preloadBytes := preloadBytes, preload := none,
             archiveIndex := archiveIndex, entryOffset := entryOffset,
             entryLength := entryLength }, p)
  else .error .badEntryTerminator

/-- Innermost `while` loop of the tree parse: file names of one folder.
The fuel only bounds the iteration count; `fromFile` supplies more fuel
than any loop over the finite buffer can consume. -/
def parseFiles : Nat → List Nat → List Nat → Entries → BinaryParser →
    Except Err (Entries × BinaryParser)
  | 0, _, _, _, _ => .error .fuelExhausted
  | fuel + 1, ext, folder, entries, p =>
    match p.readString with
    | (fn, p1) =>
      if fn = [] then .ok (entries, p1)
      else
        match readEntry ext folder fn p1 with
        | .error e => .error e
        | .ok (m, p2) => parseFiles fuel ext folder (mapSet entries m.path m) p2

/-- Middle `while` loop of the tree parse: folders of one extension. -/
def parseFolders : Nat → List Nat → Entries → BinaryParser →
    Except Err (Entries × BinaryParser)
  | 0, _, _, _ => .error .fuelExhausted
  | fuel + 1, ext, entries, p =>
    match p.readString with
    | (folder, p1) =>
      if folder = [] then .ok (entries, p1)
      else
        match parseFiles (fuel + 1) ext folder entries p1 with
        | .error e => .error e
        | .ok (entries1, p2) => parseFolders fuel ext entries1 p2

/-- Outer `while` loop of the tree parse: the extensions. -/
def parseExts : Nat → Entries → BinaryParser →
    Except Err (Entries × BinaryParser)
  | 0, _, _ => .error .fuelExhausted
  | fuel + 1, entries, p =>
    match p.readString with
    | (ext, p1) =>
      if ext = [] then .ok (entries, p1)
      else
        match parseFolders (fuel + 1) ext entries p1 with
        | .error e => .error e
        | .ok (entries1, p2) => parseExts fuel entries1 p2

/-- Version-dependent tail of the header: the v2-only section sizes
(with the `OtherMD5SectionSize == 48` assertion placed before the
fourth read, as in the source) and the residual-data offset
`headerSize + treeSize`. -/
def parseHeaderTail (version treeSize : Nat) (p : BinaryParser) :
    Except Err (Nat × Option (Nat × Nat × Nat × Nat) × BinaryParser) :=
  if version = 2 then
    step p.readUInt32LE fun fileDataSectionSize p =>
    step p.readUInt32LE fun archiveMD5SectionSize p =>
    step p.readUInt32LE fun otherMD5SectionSize p =>
    if otherMD5SectionSize = 48 then
      step p.readUInt32LE fun signatureSectionSize p =>
      .ok (28 + treeSize,
        some (fileDataSectionSize, archiveMD5SectionSize, otherMD5SectionSize,
          signatureSectionSize), p)
    else .error .invalidOtherMD5
  else .ok (12 + treeSize, none, p)

/-- Model of `VPKFile.fromFile`, applied to the already-loaded bytes of
the directory file: check the magic `0x55aa1234` and the version, read
`treeSize` and the version tail, parse the three nested tree levels,
and keep `data.subarray(dataOffset)` as the residual data. -/
def VPKFile.fromFile (data : List Nat) : Except Err VPKFile :=
  step (BinaryParser.readUInt32LE ⟨data, 0⟩) fun signature p =>
  if signature = 0x55aa1234 then
    step p.readUInt32LE fun version p =>
    if version = 1 ∨ version = 2 then
      step p.readUInt32LE fun treeSize p =>
      match parseHeaderTail version treeSize p with
      | .error e => .error e
      | .ok (dataOffset, sections, p) =>
        match parseExts (data.length + 1) [] p with
        | .error e => .error e
        | .ok (entries, _) =>
          .ok { version := version, entries := entries,
                data := data.drop dataOffset, sections := sections,
                fdCache := [] }
    else .error .unsupportedVersion
  else .error .badSignature

/-- One bit-step of the reflected CRC-32 computation with polynomial
`0xedb88320`. -/
def crcRound (c : Nat) : Nat :=
  if c % 2 = 1 then (c / 2) ^^^ 0xedb88320 else c / 2

/-- Fold one byte into a running CRC-32 value: xor it in, then eight
bit-steps. -/
def crc32Update (crc b : Nat) : Nat := Nat.iterate crcRound 8 (crc ^^^ b % 256)

/-- CRC-32 (ISO-HDLC) of a byte list, the checksum computed by the
`crc` package's `crc32`: initial value `0xffffffff`, reflected
bit-steps, final xor with `0xffffffff`. -/
def crc32 (data : List Nat) : Nat :=
  (data.foldl crc32Update 0xffffffff) ^^^ 0xffffffff

/-- Model of `Buffer.prototype.copy(target, targetStart, sourceStart,
sourceEnd)`: copy the source range `[sourceStart, sourceEnd)` — the
fourth argument is an END offset, not a length — into the target at
`targetStart`, clamping to both buffers. -/
def bufCopy (source target : List Nat) (targetStart sourceStart sourceEnd : Nat) :
    List Nat :=
  let n := min (min sourceEnd source.length - sourceStart)
    (target.length - targetStart)
  target.take targetStart ++ (source.drop sourceStart).take n ++
    target.drop (targetStart + n)

/-- Model of `path.replace(/\\/g, '/')` on the byte level: backslash
(92) becomes slash (47). -/
def normalizePath (p : List Nat) : List Nat :=
  p.map (fun b => if b = 92 then 47 else b)

/-- The filesystem surrounding `readFile`: the external archives' byte
contents keyed by archive index (the path derivation `_dir.vpk` →
`_NNN.vpk` is injective in the index, so the index itself is the key),
the next file descriptor handed out by `open`, and the chronological
list of archive indexes successfully opened. -/
structure World where
  files : Nat → Option (List Nat)
  nextFd : Nat
  openEvents : List Nat

/-- The buffer of `readFile` after `Buffer.alloc(preloadBytes +
entryLength)` and the optional `preload.copy(buff)`. -/
def preloadBuff (m : VPKEntryMeta) : List Nat :=
  let buff := List.replicate (m.preloadBytes + m.entryLength) 0
  match m.preload with
  | some pre => bufCopy pre buff 0 0 pre.length
  | none => buff

/-- The fully assembled buffer of a successful external read of
`entryLength` bytes at `entryOffset` from archive contents `contents`,
landing right after the preload bytes. -/
def assembled (m : VPKEntryMeta) (contents : List Nat) : List Nat :=
  bufCopy contents (preloadBuff m) m.preloadBytes m.entryOffset
    (m.entryOffset + m.entryLength)

/-- Model of `VPKFile.readFile(path, validate)`.  Returns the result
together with the object and world after the call (mutations survive a
thrown assertion).  Following the source: look the normalized path up;
allocate `preloadBytes + entryLength` zero bytes; copy the preload in;
then, when `entryLength > 0`, either copy
`data.copy(buff, preloadBytes, entryOffset, entryLength)` from the
residual data (archive index `0x7fff`), or open the numbered archive
(unconditionally — the fd cache is written, never consulted), cache the
fd, read `entryLength` bytes at `entryOffset`, assert the read was not
short, and, only on this branch, check the CRC when `validate` is
set. -/
def VPKFile.readFile (w : World) (v : VPKFile) (path0 : List Nat)
    (validate : Bool) : Except Err (List Nat) × VPKFile × World :=
  let path := normalizePath path0
  match mapGet v.entries path with
  | none => (.error .fileNotFound, v, w)
  | some m =>
    let buff1 := preloadBuff m
    if 0 < m.entryLength then
      if m.archiveIndex = 0x7fff then
        (.ok (bufCopy v.data buff1 m.preloadBytes m.entryOffset m.entryLength),
          v, w)
      else
        match w.files m.archiveIndex with
        | none => (.error .openFailed, v, w)
        | some contents =>
          let fd := w.nextFd
          let w1 : World := { files := w.files
                              nextFd := w.nextFd + 1
                              openEvents := w.openEvents ++ [m.archiveIndex] }
          let v1 : VPKFile := { v with fdCache := mapSet v.fdCache m.archiveIndex fd }
          let bytesRead := min m.entryLength (contents.length - m.entryOffset)
          let buff2 := bufCopy contents buff1 m.preloadBytes m.entryOffset
            (m.entryOffset + bytesRead)
          if bytesRead = m.entryLength then
            if validate ∧ crc32 buff2 ≠ m.CRC then
              (.error .validationFailed, v1, w1)
            else (.ok buff2, v1, w1)
          else (.error .shortRead, v1, w1)
    else (.ok buff1, v, w)

/-- Model of `closeSubArchives()`: snapshot the fd cache, clear it,
then close every snapshotted fd, all closes being initiated before any
completion is awaited; `closeOk` tells which fds close successfully and
the aggregate fails when any close does.  The third component is the
list of fds whose close was initiated. -/
def VPKFile.closeSubArchives (closeOk : Nat → Bool) (v : VPKFile) :
    Except Err Unit × VPKFile × List Nat :=
  let cache := v.fdCache
  let v1 := { v with fdCache := ([] : List (Nat × Nat)) }
  let fds := cache.map (fun kv => kv.2)
  ((if fds.all closeOk then .ok () else .error .closeFailed), v1, fds)

/-! ### Helper lemmas about the byte-scan primitives -/

lemma byteAt_drop (l : List Nat) (m n : Nat) :
    byteAt (l.drop m) n = byteAt l (m + n) := by
  simp [byteAt, List.getD_eq_getElem?_getD, List.getElem?_drop]

lemma scanCount_le (l : List Nat) : scanCount l ≤ l.length := by
  induction l with
  | nil => simp [scanCount]
  | cons b rest ih =>
      rw [scanCount]
      by_cases hb : b ≠ 0
      · rw [if_pos hb]; simpa using ih
      · rw [if_neg hb]; simp

lemma scanCount_nonzero (l : List Nat) :
    ∀ i, i < scanCount l → l.getD i 0 ≠ 0 := by
  induction l with
  | nil => simp [scanCount]
  | cons b rest ih =>
      intro i hi
      rw [scanCount] at hi
      by_cases hb : b ≠ 0
      · rw [if_pos hb] at hi
        cases i with
        | zero => simpa using hb
        | succ j => simpa using ih j (by omega)
      · rw [if_neg hb] at hi; omega

lemma scanCount_stop (l : List Nat) :
    scanCount l = l.length ∨ l.getD (scanCount l) 0 = 0 := by
  induction l with
  | nil => simp [scanCount]
  | cons b rest ih =>
      by_cases hb : b ≠ 0
      · rcases ih with h | h
        · exact .inl (by simp [scanCount, hb, h])
        · exact .inr (by simpa [scanCount, hb] using h)
      · exact .inr (by simpa [scanCount, hb] using not_ne_iff.mp hb)

/-- The stop position of the `readString` scan starting at `c ≤ length`
stays inside the buffer, and the byte there (when inside) is zero. -/
lemma scan_stop (d : List Nat) (c : Nat) (h : c ≤ d.length) :
    c + scanCount (d.drop c) ≤ d.length ∧
      (c + scanCount (d.drop c) = d.length ∨
        byteAt d (c + scanCount (d.drop c)) = 0) := by
  have hle := scanCount_le (d.drop c)
  rw [List.length_drop] at hle
  constructor
  · omega
  · rcases scanCount_stop (d.drop c) with hs | hs
    · left; rw [List.length_drop] at hs; omega
    · right
      have := byteAt_drop d c (scanCount (d.drop c))
      rw [← this]
      exact hs

lemma byteAt_def (l : List Nat) (i : Nat) : byteAt l i = l.getD i 0 := rfl

lemma scanCount_head_zero (l : List Nat) (h : l.getD 0 0 = 0) : scanCount l = 0 := by
  cases l with
  | nil => rfl
  | cons b rest => simp only [List.getD_cons_zero] at h; simp [scanCount, h]

/-- Cursor arithmetic of the advancing `readString`: when the cursor
starts inside the buffer, the new cursor is one past the scan stop. -/
lemma readString_adv (p : BinaryParser) (h : p.cursor ≤ p.data.length) :
    (p.readString).2.cursor = p.cursor + scanCount (p.data.drop p.cursor) + 1 := by
  obtain ⟨hle, hstop⟩ := scan_stop p.data p.cursor h
  have hneg : ¬ (p.cursor + scanCount (p.data.drop p.cursor) < p.data.length ∧
      byteAt p.data (p.cursor + scanCount (p.data.drop p.cursor)) ≠ 0) := by
    rintro ⟨h1, h2⟩
    rcases hstop with h3 | h3
    · omega
    · exact h2 h3
  show p.cursor + scanCount (p.data.drop p.cursor) +
      (if p.cursor + scanCount (p.data.drop p.cursor) < p.data.length ∧
          byteAt p.data (p.cursor + scanCount (p.data.drop p.cursor)) ≠ 0
        then 0 else 1) = _
  rw [if_neg hneg]

/-- C6: the cursor-advancing null-terminated string read scans forward
until a zero byte or the end of the buffer (every byte strictly inside
the scanned span is non-zero, and the stop position is the buffer end
or holds a zero byte), returns the scanned span decoded as ASCII, is
empty when the starting byte is zero or the cursor starts at the buffer
end, and always sets the cursor to one byte past the last scanned byte;
in particular, when the scan stopped at the end of the buffer without
finding a zero byte, the cursor ends exactly one byte past the buffer
length. -/
theorem readString_spec_thm (p : BinaryParser) (h : p.cursor ≤ p.data.length) :
    (∀ i, p.cursor ≤ i → i < p.cursor + scanCount (p.data.drop p.cursor) →
      byteAt p.data i ≠ 0) ∧
    p.cursor + scanCount (p.data.drop p.cursor) ≤ p.data.length ∧
    (p.cursor + scanCount (p.data.drop p.cursor) = p.data.length ∨
      byteAt p.data (p.cursor + scanCount (p.data.drop p.cursor)) = 0) ∧
    (p.readString).1 =
      asciiOf ((p.data.drop p.cursor).take (scanCount (p.data.drop p.cursor))) ∧
    (p.readString).2.data = p.data ∧
    (p.readString).2.cursor = p.cursor + scanCount (p.data.drop p.cursor) + 1 ∧
    ((byteAt p.data p.cursor = 0 ∨ p.cursor = p.data.length) →
      (p.readString).1 = []) ∧
    ((∀ i, p.cursor ≤ i → i < p.data.length → byteAt p.data i ≠ 0) →
      (p.readString).2.cursor = p.data.length + 1) := by
  obtain ⟨hle, hstop⟩ := scan_stop p.data p.cursor h
  have hadv := readString_adv p h
  refine ⟨?_, hle, hstop, rfl, rfl, hadv, ?_, ?_⟩
  · intro i h1 h2
    have h3 := scanCount_nonzero (p.data.drop p.cursor) (i - p.cursor) (by omega)
    rw [← byteAt_def, byteAt_drop] at h3
    have h4 : p.cursor + (i - p.cursor) = i := by omega
    rwa [h4] at h3
  · intro hc
    have hsc : scanCount (p.data.drop p.cursor) = 0 := by
      rcases hc with hc | hc
      · apply scanCount_head_zero
        rw [← byteAt_def, byteAt_drop]
        simpa using hc
      · rw [hc, List.drop_length]
        rfl
    show asciiOf ((p.data.drop p.cursor).take (scanCount (p.data.drop p.cursor))) = []
    rw [hsc]
    simp [asciiOf]
  · intro hall
    rw [hadv]
    rcases hstop with h1 | h1
    · omega
    · by_cases h2 : p.cursor + scanCount (p.data.drop p.cursor) < p.data.length
      · exact absurd h1 (hall _ (by omega) h2)
      · omega

/-- Witness for C6 at a concrete input: reading from `[65, 66]` (no
terminator anywhere) returns both bytes and leaves the cursor at 3, one
past the buffer length. -/
theorem readString_spec_thm_witness :
    ((BinaryParser.mk [65, 66] 0).readString).1 = [65, 66] ∧
    ((BinaryParser.mk [65, 66] 0).readString).2.cursor = 3 := by
  have h := readString_spec_thm (BinaryParser.mk [65, 66] 0) (by decide)
  refine ⟨?_, h.2.2.2.2.2.2.2 (by decide)⟩
  rw [h.2.2.2.1]
  decide

/-- C3 counterexample: on the empty buffer, a cursor-advancing
`readUInt32LE` fails with `outOfBounds` but still leaves the cursor at
4, which exceeds the buffer length 0 — so the cursor bound does not
survive failing operations. -/
theorem cursor_bound_counterexample :
    ((BinaryParser.mk [] 0).readUInt32LE).1 = .error .outOfBounds ∧
    ((BinaryParser.mk [] 0).readUInt32LE).2.cursor = 4 ∧
    ¬ ((BinaryParser.mk [] 0).readUInt32LE).2.cursor ≤
        (BinaryParser.mk [] 0).data.length :=
  ⟨rfl, rfl, by decide⟩

/-- C3 amended: starting from a cursor within bounds, the cursor stays
within bounds after `readBytes` (success or failure), `seek` (success
or failure) and `reset`, and after a SUCCESSFUL cursor-advancing
integer read; but a cursor-advancing integer read always advances by
its width even when it fails (so a failing read can push the cursor
past the buffer length), and `readString` can leave the cursor up to
one byte past the buffer length. -/
theorem cursor_bound_amended (p : BinaryParser) (n : Nat) (off : Int)
    (mode : SeekMode) (h : p.cursor ≤ p.data.length) :
    (p.readBytes n).2.cursor ≤ p.data.length ∧
    (p.seek off mode).2.cursor ≤ p.data.length ∧
    p.reset.cursor = 0 ∧
    (∀ val, (p.readUInt32LE).1 = .ok val →
      (p.readUInt32LE).2.cursor ≤ p.data.length) ∧
    (p.readUInt32LE).2.cursor = p.cursor + 4 ∧
    (∀ val, (p.readUInt16LE).1 = .ok val →
      (p.readUInt16LE).2.cursor ≤ p.data.length) ∧
    (p.readUInt16LE).2.cursor = p.cursor + 2 ∧
    (p.readString).2.cursor ≤ p.data.length + 1 := by
  refine ⟨?_, ?_, rfl, ?_, rfl, ?_, rfl, ?_⟩
  · by_cases hb : p.cursor + n ≤ p.data.length
    · unfold BinaryParser.readBytes
      rw [if_pos hb]
      exact hb
    · unfold BinaryParser.readBytes
      rw [if_neg hb]
      exact h
  · cases mode with
    | absolute =>
        by_cases hb : 0 < off ∧ off ≤ (p.data.length : Int)
        · unfold BinaryParser.seek
          rw [if_pos hb]
          show off.toNat ≤ p.data.length
          omega
        · unfold BinaryParser.seek
          rw [if_neg hb]
          exact h
    | relative =>
        by_cases hb : 0 < (p.cursor : Int) + off ∧
            (p.cursor : Int) + off ≤ (p.data.length : Int)
        · unfold BinaryParser.seek
          rw [if_pos hb]
          show ((p.cursor : Int) + off).toNat ≤ p.data.length
          omega
        · unfold BinaryParser.seek
          rw [if_neg hb]
          exact h
  · intro val hval
    by_cases hb : p.cursor + 4 ≤ p.data.length
    · exact hb
    · unfold BinaryParser.readUInt32LE bufReadU32LE at hval
      rw [if_neg hb] at hval
      exact absurd hval (by simp)
  · intro val hval
    by_cases hb : p.cursor + 2 ≤ p.data.length
    · exact hb
    · unfold BinaryParser.readUInt16LE bufReadU16LE at hval
      rw [if_neg hb] at hval
      exact absurd hval (by simp)
  · rw [readString_adv p h]
    have := (scan_stop p.data p.cursor h).1
    omega

/-- Witness for C3 amended at a concrete input: on the buffer
`[1, 2, 3]` with cursor 1, the bounds of the amended statement hold for
`readBytes 2` and an absolute `seek` to 3. -/
theorem cursor_bound_amended_witness :
    ((BinaryParser.mk [1, 2, 3] 1).readBytes 2).2.cursor ≤ 3 ∧
    ((BinaryParser.mk [1, 2, 3] 1).seek 3 .absolute).2.cursor ≤ 3 := by
  have h := cursor_bound_amended (BinaryParser.mk [1, 2, 3] 1) 2 3 .absolute
    (by decide)
  exact ⟨h.1, h.2.1⟩

/-- C7: `seek` with mode `Absolute` succeeds, returning the offset and
making it the new cursor, exactly when `0 < offset ≤ length`, and
otherwise fails with `InvalidOffset` leaving the parser untouched;
`seek` with mode `Relative` succeeds exactly when
`0 < cursor + offset ≤ length`, setting the cursor to `cursor + offset`,
and otherwise fails with `InvalidOffset` leaving the parser
untouched. -/
theorem seek_spec_thm (p : BinaryParser) (off : Int) :
    ((p.seek off .absolute).1 = .ok off.toNat ∧
        (p.seek off .absolute).2.cursor = off.toNat ↔
      0 < off ∧ off ≤ (p.data.length : Int)) ∧
    ((p.seek off .absolute).1 = .error .invalidOffset ∧
        (p.seek off .absolute).2 = p ↔
      ¬ (0 < off ∧ off ≤ (p.data.length : Int))) ∧
    ((p.seek off .relative).1 = .ok ((p.cursor : Int) + off).toNat ∧
        (p.seek off .relative).2.cursor = ((p.cursor : Int) + off).toNat ↔
      0 < (p.cursor : Int) + off ∧
        (p.cursor : Int) + off ≤ (p.data.length : Int)) ∧
    ((p.seek off .relative).1 = .error .invalidOffset ∧
        (p.seek off .relative).2 = p ↔
      ¬ (0 < (p.cursor : Int) + off ∧
        (p.cursor : Int) + off ≤ (p.data.length : Int))) := by
  by_cases ha : 0 < off ∧ off ≤ (p.data.length : Int) <;>
    by_cases hr : 0 < (p.cursor : Int) + off ∧
      (p.cursor : Int) + off ≤ (p.data.length : Int) <;>
    simp [BinaryParser.seek, ha, hr]

/-! ### Teardown (claim C10) -/

/-- C10: after any call to `closeSubArchives` — whether it succeeds or
fails because closing some handle failed — the fd cache is empty; a
close is initiated for every handle cached at call time (the third
component lists them, a snapshot of the cache taken before any close);
and the call succeeds exactly when every initiated close succeeds. -/
theorem closeSubArchives_spec (closeOk : Nat → Bool) (v : VPKFile) :
    (v.closeSubArchives closeOk).2.1.fdCache = [] ∧
    (v.closeSubArchives closeOk).2.2 = v.fdCache.map (fun kv => kv.2) ∧
    ((v.closeSubArchives closeOk).1 = .ok () ↔
      (v.fdCache.map (fun kv => kv.2)).all closeOk = true) := by
  refine ⟨rfl, rfl, ?_⟩
  by_cases hb : (v.fdCache.map (fun kv => kv.2)).all closeOk = true
  · simp [VPKFile.closeSubArchives, hb]
  · simp [VPKFile.closeSubArchives, hb]

/-! ### Concrete scenario of claim C5 -/

/-- The 13 directory bytes of the C5 scenario: magic `0x55aa1234`,
version 1, `treeSize` 0, then a single zero byte ending the extension
level. -/
def c5bytes : List Nat := [0x34, 0x12, 0xAA, 0x55, 0x01, 0, 0, 0, 0, 0, 0, 0, 0x00]

/-- C5 counterexample: the scenario buffer parses successfully, but the
residual data region is the single byte `[0x00]` — `dataOffset` is
`12 + 0 = 12` while the buffer has 13 bytes — not the zero-length
region the claim asserts. -/
theorem empty_tree_residual_counterexample :
    (VPKFile.fromFile c5bytes).map (fun v => v.data) = .ok [0] ∧
    ([0] : List Nat) ≠ [] := ⟨rfl, by decide⟩

/-- C5 amended: the scenario buffer parses successfully to version 1
with an empty entry table, and the residual data region is the single
byte `[0x00]` (length 1, the tree-terminator byte) rather than being
empty. -/
theorem empty_tree_parse_amended :
    (VPKFile.fromFile c5bytes).map (fun v => (v.version, v.entries, v.data)) =
      .ok (1, [], [0]) := rfl

/-! ### Concrete inputs exposing the `readFile` bugs (claims C1, C2, C4) -/

/-- Entry stored in the directory file itself (`archiveIndex 0x7fff`)
at `entryOffset` 1 with `entryLength` 1 and no preload. -/
def c1meta : VPKEntryMeta :=
  { extension := [99], folder := [97], fileName := [98], path := [97, 47, 98, 46, 99]
    CRC := 0, preloadBytes := 0, preload := none
    archiveIndex := 0x7fff, entryOffset := 1, entryLength := 1 }

/-- Parsed directory holding `c1meta` with residual data `[10, 20]`. -/
def c1vpk : VPKFile :=
  { version := 1, entries := [([97, 47, 98, 46, 99], c1meta)], data := [10, 20]
    sections := none, fdCache := [] }

/-- World with no external archives. -/
def noWorld : World := { files := fun _ => none, nextFd := 0, openEvents := [] }

/-- C1 (code bug): for the self-contained entry with `entryOffset = 1`
and `entryLength = 1`, the source calls
`data.copy(buff, preloadBytes, entryOffset, entryLength)` whose fourth
argument is the source END offset, so it copies `data[1 : 1]` — zero
bytes — and returns the still-zeroed buffer `[0]`, while the bytes
`residualData[1 : 2]` demanded by the claim are `[20]`. -/
theorem readFile_selfContained_bug :
    (c1vpk.readFile noWorld [97, 47, 98, 46, 99] false).1 = .ok [0] ∧
    (c1vpk.data.drop c1meta.entryOffset).take c1meta.entryLength = [20] ∧
    ([0] : List Nat) ≠ [20] := ⟨rfl, rfl, by decide⟩

/-- Entry living in external archive 0. -/
def c2meta : VPKEntryMeta :=
  { extension := [99], folder := [97], fileName := [98], path := [97, 47, 98, 46, 99]
    CRC := 0, preloadBytes := 0, preload := none
    archiveIndex := 0, entryOffset := 0, entryLength := 1 }

/-- Parsed directory holding `c2meta`. -/
def c2vpk : VPKFile :=
  { version := 1, entries := [([97, 47, 98, 46, 99], c2meta)], data := []
    sections := none, fdCache := [] }

/-- World in which archive 0 exists with contents `[7]`. -/
def c2world : World :=
  { files := fun i => if i = 0 then some [7] else none, nextFd := 0, openEvents := [] }

/-- C2 (code bug): two successive successful `readFile` calls for the
same entry in external archive 0 both open a handle — the open events
are `[0, 0]` — because the source opens unconditionally and only ever
writes the fd cache, never consulting it; the second open's fd (1)
overwrites the first (0) in the cache, so the first handle leaks. -/
theorem readFile_opensEveryTime_bug :
    (c2vpk.readFile c2world [97, 47, 98, 46, 99] false).1 = .ok [7] ∧
    ((c2vpk.readFile c2world [97, 47, 98, 46, 99] false).2.1.readFile
        (c2vpk.readFile c2world [97, 47, 98, 46, 99] false).2.2
        [97, 47, 98, 46, 99] false).1 = .ok [7] ∧
    ((c2vpk.readFile c2world [97, 47, 98, 46, 99] false).2.1.readFile
        (c2vpk.readFile c2world [97, 47, 98, 46, 99] false).2.2
        [97, 47, 98, 46, 99] false).2.2.openEvents = [0, 0] ∧
    ((c2vpk.readFile c2world [97, 47, 98, 46, 99] false).2.1.readFile
        (c2vpk.readFile c2world [97, 47, 98, 46, 99] false).2.2
        [97, 47, 98, 46, 99] false).2.1.fdCache = [(0, 1)] :=
  ⟨rfl, rfl, rfl, rfl⟩

/-- Self-contained entry (archive index `0x7fff`, offset 0, length 1)
whose stored `CRC` 0 does not match the CRC-32 of its one data byte. -/
def c4meta : VPKEntryMeta :=
  { extension := [99], folder := [97], fileName := [98], path := [97, 47, 98, 46, 99]
    CRC := 0, preloadBytes := 0, preload := none
    archiveIndex := 0x7fff, entryOffset := 0, entryLength := 1 }

/-- Parsed directory holding `c4meta` with residual data `[5]`. -/
def c4vpk : VPKFile :=
  { version := 1, entries := [([97, 47, 98, 46, 99], c4meta)], data := [5]
    sections := none, fdCache := [] }

/-- C4 counterexample: reading the self-contained entry with
`validate = true` succeeds with `[5]` even though the CRC-32 of the
assembled buffer differs from the stored `crc` — no `ValidationFailed`
is raised on the `0x7fff` branch, contradicting the claim that
validation applies regardless of where the content came from. -/
theorem validation_skipped_counterexample :
    (c4vpk.readFile noWorld [97, 47, 98, 46, 99] true).1 = .ok [5] ∧
    crc32 [5] ≠ c4meta.CRC := ⟨rfl, by decide⟩

/-- C4 amended: `readFile` fails with `ValidationFailed` exactly when
`validate` is set AND the entry's content comes from an external
archive (`entryLength > 0` and `archiveIndex ≠ 0x7fff`) whose open and
full-length read succeed AND the CRC-32 of the fully assembled buffer
differs from the entry's stored `crc`.  On the preload-only and
residual-data (`0x7fff`) branches the `validate` argument is ignored. -/
theorem validation_external_only_amended (w : World) (v : VPKFile)
    (path0 : List Nat) (validate : Bool) (m : VPKEntryMeta)
    (hm : mapGet v.entries (normalizePath path0) = some m) :
    (v.readFile w path0 validate).1 = .error .validationFailed ↔
      (validate = true ∧ 0 < m.entryLength ∧ m.archiveIndex ≠ 0x7fff ∧
        ∃ contents, w.files m.archiveIndex = some contents ∧
          m.entryOffset + m.entryLength ≤ contents.length ∧
          crc32 (assembled m contents) ≠ m.CRC) := by
  unfold VPKFile.readFile
  simp only [hm]
  by_cases h1 : 0 < m.entryLength
  · rw [if_pos h1]
    by_cases h2 : m.archiveIndex = 0x7fff
    · rw [if_pos h2]
      simp [h2]
    · rw [if_neg h2]
      split
      next hf => simp [hf, h2]
      next contents hf =>
        have hmin : min m.entryLength (contents.length - m.entryOffset) =
            m.entryLength ↔ m.entryOffset + m.entryLength ≤ contents.length := by
          omega
        by_cases h3 : min m.entryLength (contents.length - m.entryOffset) =
            m.entryLength
        · rw [if_pos h3]
          have hasm : bufCopy contents (preloadBuff m) m.preloadBytes
              m.entryOffset (m.entryOffset +
                min m.entryLength (contents.length - m.entryOffset)) =
              assembled m contents := by
            rw [h3]; rfl
          rw [hasm]
          by_cases h4 : validate = true ∧ crc32 (assembled m contents) ≠ m.CRC
          · rw [if_pos h4]
            simp only [true_iff]
            exact ⟨h4.1, h1, h2, contents, hf, hmin.mp h3, h4.2⟩
          · rw [if_neg h4]
            constructor
            · intro hc
              exact absurd hc (by simp)
            · rintro ⟨hv, -, -, c, hc, -, hcrc⟩
              rw [hf] at hc
              cases hc
              exact absurd ⟨hv, hcrc⟩ h4
        · rw [if_neg h3]
          constructor
          · intro hc
            exact absurd hc (by simp)
          · rintro ⟨-, -, -, c, hc, hb, -⟩
            rw [hf] at hc
            cases hc
            exact absurd (hmin.mpr hb) h3
  · rw [if_neg h1]
    simp [h1]

/-- Witness for C4 amended: an external entry in archive 0 with one
byte `[5]` and stored `crc` 0 read with `validate = true` fails with
`ValidationFailed`. -/
theorem validation_external_only_amended_witness :
    ((c2vpk.readFile c2world [97, 47, 98, 46, 99] true).1 =
      .error .validationFailed) :=
  (validation_external_only_amended c2world c2vpk [97, 47, 98, 46, 99] true
    c2meta rfl).mpr ⟨rfl, by decide, by decide, [7], rfl, by decide, by decide⟩

/-! ### Normal forms of the successful primitive reads (claim C8) -/

lemma ru32_ok (d : List Nat) (c : Nat) (h : c + 4 ≤ d.length) :
    BinaryParser.readUInt32LE ⟨d, c⟩ = (.ok (u32At d c), ⟨d, c + 4⟩) := by
  simp [BinaryParser.readUInt32LE, bufReadU32LE, h]

lemma ru16_ok (d : List Nat) (c : Nat) (h : c + 2 ≤ d.length) :
    BinaryParser.readUInt16LE ⟨d, c⟩ = (.ok (u16At d c), ⟨d, c + 2⟩) := by
  simp [BinaryParser.readUInt16LE, bufReadU16LE, h]

lemma readBytes_ok (d : List Nat) (c n : Nat) (h : c + n ≤ d.length) :
    BinaryParser.readBytes ⟨d, c⟩ n = (.ok ((d.drop c).take n), ⟨d, c + n⟩) := by
  simp [BinaryParser.readBytes, h]

lemma readBytes_err (d : List Nat) (c n : Nat) (h : d.length < c + n) :
    BinaryParser.readBytes ⟨d, c⟩ n = (.error .insufficientBytes, ⟨d, c⟩) := by
  simp only [BinaryParser.readBytes]
  rw [if_neg (by omega)]

lemma step_ok {α β : Type} (a : α) (q : BinaryParser)
    (k : α → BinaryParser → Except Err β) : step (.ok a, q) k = k a q := rfl

lemma step_err {α β : Type} (e : Err) (q : BinaryParser)
    (k : α → BinaryParser → Except Err β) : step (.error e, q) k = .error e := rfl

/-- The entry record the C8 claim describes, decoded at cursor `c`:
the six fields at their little-endian offsets `c`, `c+4`, `c+6`, `c+8`,
`c+12` (terminator at `c+16`), the preload bytes — at `c+18` — present
exactly when the preload count is non-zero. -/
def entryMetaAt (ext folder fn d : List Nat) (c : Nat) : VPKEntryMeta :=
  { extension := ext, folder := folder, fileName := fn
    path := folder ++ [47] ++ fn ++ [46] ++ ext
    CRC := u32At d c
    preloadBytes := u16At d (c + 4)
    preload := if u16At d (c + 4) ≠ 0 then
        some ((d.drop (c + 18)).take (u16At d (c + 4)))
      else none
    archiveIndex := u16At d (c + 6)
    entryOffset := u32At d (c + 8)
    entryLength := u32At d (c + 12) }

/-- C8: for an entry record whose 18 fixed bytes fit in the buffer, the
parse of the record reads `crc` (u32), `preloadBytes` (u16),
`archiveIndex` (u16), `entryOffset` (u32), `entryLength` (u32) at
consecutive offsets followed by a u16 terminator; it fails with
`BadEntryTerminator` exactly when that terminator differs from
`0xffff`; when the terminator is `0xffff` the preload bytes are read
exactly when `preloadBytes > 0` and the decoded record is returned; and
within the file-name loop an entry failure aborts the whole loop with
the same error while a successful record is inserted into the table
before parsing continues. -/
theorem entry_record_spec (p : BinaryParser) (ext folder fn : List Nat)
    (h : p.cursor + 18 ≤ p.data.length) :
    (readEntry ext folder fn p = .error .badEntryTerminator ↔
      u16At p.data (p.cursor + 16) ≠ 0xffff) ∧
    (u16At p.data (p.cursor + 16) = 0xffff →
      (u16At p.data (p.cursor + 4) = 0 →
        readEntry ext folder fn p =
          .ok (entryMetaAt ext folder fn p.data p.cursor,
            ⟨p.data, p.cursor + 18⟩)) ∧
      (u16At p.data (p.cursor + 4) ≠ 0 →
        (p.cursor + 18 + u16At p.data (p.cursor + 4) ≤ p.data.length →
          readEntry ext folder fn p =
            .ok (entryMetaAt ext folder fn p.data p.cursor,
              ⟨p.data, p.cursor + 18 + u16At p.data (p.cursor + 4)⟩)) ∧
        (p.data.length < p.cursor + 18 + u16At p.data (p.cursor + 4) →
          readEntry ext folder fn p = .error .insufficientBytes))) ∧
    (∀ (e : Err) (fuel : Nat) (entries : Entries) (p0 : BinaryParser),
      p0.readString = (fn, p) → fn ≠ [] →
      readEntry ext folder fn p = .error e →
      parseFiles (fuel + 1) ext folder entries p0 = .error e) ∧
    (∀ (m : VPKEntryMeta) (q : BinaryParser) (fuel : Nat) (entries : Entries)
      (p0 : BinaryParser),
      p0.readString = (fn, p) → fn ≠ [] →
      readEntry ext folder fn p = .ok (m, q) →
      parseFiles (fuel + 1) ext folder entries p0 =
        parseFiles fuel ext folder (mapSet entries m.path m) q) ∧
    (∀ (e : Err) (fuel : Nat) (entries : Entries) (p0 p1 : BinaryParser),
      p0.readString = (folder, p1) → folder ≠ [] →
      parseFiles (fuel + 1) ext folder entries p1 = .error e →
      parseFolders (fuel + 1) ext entries p0 = .error e) ∧
    (∀ (e : Err) (fuel : Nat) (entries : Entries) (p0 p1 : BinaryParser),
      p0.readString = (ext, p1) → ext ≠ [] →
      parseFolders (fuel + 1) ext entries p1 = .error e →
      parseExts (fuel + 1) entries p0 = .error e) ∧
    (∀ (e : Err) (data : List Nat) (dataOffset : Nat)
      (sections : Option (Nat × Nat × Nat × Nat)) (q : BinaryParser),
      12 ≤ data.length →
      u32At data 0 = 0x55aa1234 →
      (u32At data 4 = 1 ∨ u32At data 4 = 2) →
      parseHeaderTail (u32At data 4) (u32At data 8) ⟨data, 12⟩ =
        .ok (dataOffset, sections, q) →
      parseExts (data.length + 1) [] q = .error e →
      VPKFile.fromFile data = .error e) := by
  obtain ⟨d, c⟩ := p
  simp only at h
  refine ⟨?_, ?_, ?_, ?_, ?_, ?_, ?_⟩
  · unfold readEntry
    simp only [ru32_ok d c (by omega), step_ok]
    simp only [ru16_ok d (c + 4) (by omega), step_ok]
    simp only [ru16_ok d (c + 4 + 2) (by omega), step_ok]
    simp only [ru32_ok d (c + 4 + 2 + 2) (by omega), step_ok]
    simp only [ru32_ok d (c + 4 + 2 + 2 + 4) (by omega), step_ok]
    simp only [ru16_ok d (c + 4 + 2 + 2 + 4 + 4) (by omega), step_ok]
    rw [show c + 4 + 2 + 2 + 4 + 4 + 2 = c + 18 from by omega,
      show c + 4 + 2 + 2 + 4 + 4 = c + 16 from by omega]
    by_cases ht : u16At d (c + 16) = 0xffff
    · rw [if_pos ht]
      constructor
      · intro hx
        by_cases hpb : u16At d (c + 4) ≠ 0
        · rw [if_pos hpb] at hx
          by_cases hb : c + 18 + u16At d (c + 4) ≤ d.length
          · rw [readBytes_ok d (c + 18) _ hb, step_ok] at hx
            exact absurd hx (by simp)
          · rw [readBytes_err d (c + 18) _ (by omega), step_err] at hx
            simp at hx
        · rw [if_neg hpb] at hx
          exact absurd hx (by simp)
      · intro hx
        exact absurd ht hx
    · rw [if_neg ht]
      simp [ht]
  · unfold readEntry
    simp only [ru32_ok d c (by omega), step_ok]
    simp only [ru16_ok d (c + 4) (by omega), step_ok]
    simp only [ru16_ok d (c + 4 + 2) (by omega), step_ok]
    simp only [ru32_ok d (c + 4 + 2 + 2) (by omega), step_ok]
    simp only [ru32_ok d (c + 4 + 2 + 2 + 4) (by omega), step_ok]
    simp only [ru16_ok d (c + 4 + 2 + 2 + 4 + 4) (by omega), step_ok]
    rw [show c + 4 + 2 + 2 + 4 + 4 + 2 = c + 18 from by omega,
      show c + 4 + 2 + 2 + 4 + 4 = c + 16 from by omega]
    intro ht
    rw [if_pos ht]
    constructor
    · intro hpb0
      rw [if_neg (by simp [hpb0])]
      simp [entryMetaAt, hpb0]
    · intro hpb
      rw [if_pos hpb]
      constructor
      · intro hb
        rw [readBytes_ok d (c + 18) _ hb, step_ok]
        simp [entryMetaAt, hpb]
      · intro hb
        rw [readBytes_err d (c + 18) _ (by omega), step_err]
  · intro e fuel entries p0 hs hfn hre
    simp only [parseFiles, hs]
    rw [if_neg hfn, hre]
  · intro m q fuel entries p0 hs hfn hre
    simp only [parseFiles, hs]
    rw [if_neg hfn, hre]
  · intro e fuel entries p0 p1 hs hfo hpf
    simp only [parseFolders, hs]
    rw [if_neg hfo, hpf]
  · intro e fuel entries p0 p1 hs hex hpf
    simp only [parseExts, hs]
    rw [if_neg hex, hpf]
  · intro e data dataOffset sections q hdl hsig hver hht hpe
    unfold VPKFile.fromFile
    simp only [ru32_ok data 0 (by omega), step_ok]
    rw [if_pos hsig]
    simp only [ru32_ok data 4 (by omega), step_ok]
    rw [if_pos hver]
    simp only [ru32_ok data 8 (by omega), step_ok]
    simp only [hht, hpe]

/-- Witness for C8 at a concrete input: an 18-zero-byte record (whose
terminator u16 is 0, not `0xffff`) makes the record parse fail with
`BadEntryTerminator`. -/
theorem entry_record_spec_witness :
    readEntry [101] [102] [103] ⟨List.replicate 18 0, 0⟩ =
      .error .badEntryTerminator :=
  (entry_record_spec ⟨List.replicate 18 0, 0⟩ [101] [102] [103]
    (by decide)).1.mpr (by decide)

/-! ### Noninterference of `treeSize` with the entry table (claim C9)

The tree loops read only through the cursor, which starts at 12 (v1) or
28 (v2) and never moves backwards, so two buffers agreeing everywhere
except on the `treeSize` field (bytes 8–11) drive the tree parse
identically.  The lemmas below set up that simulation. -/

lemma ru32_err (d : List Nat) (c : Nat) (h : d.length < c + 4) :
    BinaryParser.readUInt32LE ⟨d, c⟩ = (.error .outOfBounds, ⟨d, c + 4⟩) := by
  simp only [BinaryParser.readUInt32LE, bufReadU32LE]
  rw [if_neg (by omega)]

lemma ru16_err (d : List Nat) (c : Nat) (h : d.length < c + 2) :
    BinaryParser.readUInt16LE ⟨d, c⟩ = (.error .outOfBounds, ⟨d, c + 2⟩) := by
  simp only [BinaryParser.readUInt16LE, bufReadU16LE]
  rw [if_neg (by omega)]

lemma byteAt_of_lt (d : List Nat) (i : Nat) (h : i < d.length) :
    d[i]? = some (byteAt d i) := by
  rw [List.getElem?_eq_getElem h]
  congr 1
  rw [byteAt, List.getD_eq_getElem?_getD, List.getElem?_eq_getElem h]
  rfl

lemma agree_drop12 (d1 d2 : List Nat) (hlen : d1.length = d2.length)
    (hb : ∀ i, 12 ≤ i → byteAt d1 i = byteAt d2 i) :
    d1.drop 12 = d2.drop 12 := by
  apply List.ext_getElem?
  intro n
  rw [List.getElem?_drop, List.getElem?_drop]
  rcases Nat.lt_or_ge (12 + n) d1.length with hlt | hge
  · rw [byteAt_of_lt d1 _ hlt, byteAt_of_lt d2 _ (by omega),
      hb (12 + n) (by omega)]
  · rw [List.getElem?_eq_none (by omega), List.getElem?_eq_none (by omega)]

lemma drop_byte_eq (d1 d2 : List Nat) (hd : d1.drop 12 = d2.drop 12)
    (i : Nat) (hi : 12 ≤ i) : byteAt d1 i = byteAt d2 i := by
  have h1 := byteAt_drop d1 12 (i - 12)
  have h2 := byteAt_drop d2 12 (i - 12)
  rw [show 12 + (i - 12) = i from by omega] at h1 h2
  rw [← h1, ← h2, hd]

lemma drop_ge_eq (d1 d2 : List Nat) (hd : d1.drop 12 = d2.drop 12)
    (c : Nat) (hc : 12 ≤ c) : d1.drop c = d2.drop c := by
  have h1 : (d1.drop 12).drop (c - 12) = d1.drop c := by
    rw [List.drop_drop]
    congr 1
    omega
  have h2 : (d2.drop 12).drop (c - 12) = d2.drop c := by
    rw [List.drop_drop]
    congr 1
    omega
  rw [← h1, ← h2, hd]

lemma u32At_eq_of_byte (d1 d2 : List Nat) (o : Nat)
    (h0 : byteAt d1 o = byteAt d2 o)
    (h1 : byteAt d1 (o + 1) = byteAt d2 (o + 1))
    (h2 : byteAt d1 (o + 2) = byteAt d2 (o + 2))
    (h3 : byteAt d1 (o + 3) = byteAt d2 (o + 3)) :
    u32At d1 o = u32At d2 o := by
  unfold u32At
  rw [h0, h1, h2, h3]

lemma u32At_eq (d1 d2 : List Nat) (hd : d1.drop 12 = d2.drop 12)
    (o : Nat) (ho : 12 ≤ o) : u32At d1 o = u32At d2 o :=
  u32At_eq_of_byte d1 d2 o (drop_byte_eq d1 d2 hd o ho)
    (drop_byte_eq d1 d2 hd (o + 1) (by omega))
    (drop_byte_eq d1 d2 hd (o + 2) (by omega))
    (drop_byte_eq d1 d2 hd (o + 3) (by omega))

lemma u16At_eq (d1 d2 : List Nat) (hd : d1.drop 12 = d2.drop 12)
    (o : Nat) (ho : 12 ≤ o) : u16At d1 o = u16At d2 o := by
  unfold u16At
  rw [drop_byte_eq d1 d2 hd o ho, drop_byte_eq d1 d2 hd (o + 1) (by omega)]

/-- Relation between the two runs' `readEntry` results: same error, or
same record with parsers at the same cursor (≥ 12) over the respective
buffers. -/
def entRel (d1 d2 : List Nat) :
    Except Err (VPKEntryMeta × BinaryParser) →
    Except Err (VPKEntryMeta × BinaryParser) → Prop
  | .error a, .error b => a = b
  | .ok (m1, q1), .ok (m2, q2) =>
      m1 = m2 ∧ q1.data = d1 ∧ q2.data = d2 ∧ q1.cursor = q2.cursor ∧
        12 ≤ q1.cursor
  | _, _ => False

/-- Relation between the two runs' loop results: same error, or same
entry table with parsers at the same cursor (≥ 12). -/
def stRel (d1 d2 : List Nat) :
    Except Err (Entries × BinaryParser) →
    Except Err (Entries × BinaryParser) → Prop
  | .error a, .error b => a = b
  | .ok (en1, q1), .ok (en2, q2) =>
      en1 = en2 ∧ q1.data = d1 ∧ q2.data = d2 ∧ q1.cursor = q2.cursor ∧
        12 ≤ q1.cursor
  | _, _ => False

lemma nib_readEntry (d1 d2 : List Nat) (hlen : d1.length = d2.length)
    (hd : d1.drop 12 = d2.drop 12) (c : Nat) (hc : 12 ≤ c)
    (ext folder fn : List Nat) :
    entRel d1 d2 (readEntry ext folder fn ⟨d1, c⟩)
      (readEntry ext folder fn ⟨d2, c⟩) := by
  unfold readEntry
  by_cases h1 : c + 4 ≤ d1.length
  case neg =>
    rw [ru32_err d1 c (by omega), step_err, ru32_err d2 c (by omega), step_err]
    exact rfl
  by_cases h2 : c + 4 + 2 ≤ d1.length
  case neg =>
    simp only [ru32_ok d1 c (by omega), ru32_ok d2 c (by omega), step_ok]
    rw [ru16_err d1 (c + 4) (by omega), step_err,
      ru16_err d2 (c + 4) (by omega), step_err]
    exact rfl
  by_cases h3 : c + 4 + 2 + 2 ≤ d1.length
  case neg =>
    simp only [ru32_ok d1 c (by omega), ru32_ok d2 c (by omega),
      ru16_ok d1 (c + 4) (by omega), ru16_ok d2 (c + 4) (by omega), step_ok]
    rw [ru16_err d1 (c + 4 + 2) (by omega), step_err,
      ru16_err d2 (c + 4 + 2) (by omega), step_err]
    exact rfl
  by_cases h4 : c + 4 + 2 + 2 + 4 ≤ d1.length
  case neg =>
    simp only [ru32_ok d1 c (by omega), ru32_ok d2 c (by omega),
      ru16_ok d1 (c + 4) (by omega), ru16_ok d2 (c + 4) (by omega),
      ru16_ok d1 (c + 4 + 2) (by omega), ru16_ok d2 (c + 4 + 2) (by omega),
      step_ok]
    rw [ru32_err d1 (c + 4 + 2 + 2) (by omega), step_err,
      ru32_err d2 (c + 4 + 2 + 2) (by omega), step_err]
    exact rfl
  by_cases h5 : c + 4 + 2 + 2 + 4 + 4 ≤ d1.length
  case neg =>
    simp only [ru32_ok d1 c (by omega), ru32_ok d2 c (by omega),
      ru16_ok d1 (c + 4) (by omega), ru16_ok d2 (c + 4) (by omega),
      ru16_ok d1 (c + 4 + 2) (by omega), ru16_ok d2 (c + 4 + 2) (by omega),
      ru32_ok d1 (c + 4 + 2 + 2) (by omega), ru32_ok d2 (c + 4 + 2 + 2) (by omega),
      step_ok]
    rw [ru32_err d1 (c + 4 + 2 + 2 + 4) (by omega), step_err,
      ru32_err d2 (c + 4 + 2 + 2 + 4) (by omega), step_err]
    exact rfl
  by_cases h6 : c + 4 + 2 + 2 + 4 + 4 + 2 ≤ d1.length
  case neg =>
    simp only [ru32_ok d1 c (by omega), ru32_ok d2 c (by omega),
      ru16_ok d1 (c + 4) (by omega), ru16_ok d2 (c + 4) (by omega),
      ru16_ok d1 (c + 4 + 2) (by omega), ru16_ok d2 (c + 4 + 2) (by omega),
      ru32_ok d1 (c + 4 + 2 + 2) (by omega), ru32_ok d2 (c + 4 + 2 + 2) (by omega),
      ru32_ok d1 (c + 4 + 2 + 2 + 4) (by omega),
      ru32_ok d2 (c + 4 + 2 + 2 + 4) (by omega), step_ok]
    rw [ru16_err d1 (c + 4 + 2 + 2 + 4 + 4) (by omega), step_err,
      ru16_err d2 (c + 4 + 2 + 2 + 4 + 4) (by omega), step_err]
    exact rfl
  simp only [ru32_ok d1 c (by omega), ru32_ok d2 c (by omega),
    ru16_ok d1 (c + 4) (by omega), ru16_ok d2 (c + 4) (by omega),
    ru16_ok d1 (c + 4 + 2) (by omega), ru16_ok d2 (c + 4 + 2) (by omega),
    ru32_ok d1 (c + 4 + 2 + 2) (by omega), ru32_ok d2 (c + 4 + 2 + 2) (by omega),
    ru32_ok d1 (c + 4 + 2 + 2 + 4) (by omega),
    ru32_ok d2 (c + 4 + 2 + 2 + 4) (by omega),
    ru16_ok d1 (c + 4 + 2 + 2 + 4 + 4) (by omega),
    ru16_ok d2 (c + 4 + 2 + 2 + 4 + 4) (by omega), step_ok]
  rw [← u32At_eq d1 d2 hd c (by omega),
    ← u16At_eq d1 d2 hd (c + 4) (by omega),
    ← u16At_eq d1 d2 hd (c + 4 + 2) (by omega),
    ← u32At_eq d1 d2 hd (c + 4 + 2 + 2) (by omega),
    ← u32At_eq d1 d2 hd (c + 4 + 2 + 2 + 4) (by omega),
    ← u16At_eq d1 d2 hd (c + 4 + 2 + 2 + 4 + 4) (by omega)]
  by_cases ht : u16At d1 (c + 4 + 2 + 2 + 4 + 4) = 0xffff
  · rw [if_pos ht, if_pos ht]
    by_cases hpb : u16At d1 (c + 4) ≠ 0
    · rw [if_pos hpb, if_pos hpb]
      by_cases hb : c + 4 + 2 + 2 + 4 + 4 + 2 + u16At d1 (c + 4) ≤ d1.length
      · rw [readBytes_ok d1 (c + 4 + 2 + 2 + 4 + 4 + 2) _ hb, step_ok,
          readBytes_ok d2 (c + 4 + 2 + 2 + 4 + 4 + 2) _ (by omega), step_ok,
          drop_ge_eq d1 d2 hd (c + 4 + 2 + 2 + 4 + 4 + 2) (by omega)]
        exact ⟨rfl, rfl, rfl, rfl,
          by show 12 ≤ c + 4 + 2 + 2 + 4 + 4 + 2 + u16At d1 (c + 4); omega⟩
      · rw [readBytes_err d1 (c + 4 + 2 + 2 + 4 + 4 + 2) _ (by omega), step_err,
          readBytes_err d2 (c + 4 + 2 + 2 + 4 + 4 + 2) _ (by omega), step_err]
        exact rfl
    · rw [if_neg hpb, if_neg hpb]
      exact ⟨rfl, rfl, rfl, rfl,
        by show 12 ≤ c + 4 + 2 + 2 + 4 + 4 + 2; omega⟩
  · rw [if_neg ht, if_neg ht]
    exact rfl

lemma readString_cursor_ge (p : BinaryParser) :
    p.cursor ≤ (p.readString).2.cursor := by
  show p.cursor ≤ p.cursor + scanCount (p.data.drop p.cursor) + _
  exact (Nat.le_add_right _ _).trans (Nat.le_add_right _ _)

lemma nib_readString (d1 d2 : List Nat) (hlen : d1.length = d2.length)
    (hd : d1.drop 12 = d2.drop 12) (c : Nat) (hc : 12 ≤ c) :
    ((⟨d1, c⟩ : BinaryParser).readString).1 =
      ((⟨d2, c⟩ : BinaryParser).readString).1 ∧
    ((⟨d1, c⟩ : BinaryParser).readString).2.cursor =
      ((⟨d2, c⟩ : BinaryParser).readString).2.cursor := by
  have hdc := drop_ge_eq d1 d2 hd c hc
  constructor
  · show asciiOf ((d1.drop c).take (scanCount (d1.drop c))) =
      asciiOf ((d2.drop c).take (scanCount (d2.drop c)))
    rw [hdc]
  · show c + scanCount (d1.drop c) +
        (if c + scanCount (d1.drop c) < d1.length ∧
            byteAt d1 (c + scanCount (d1.drop c)) ≠ 0 then 0 else 1) =
      c + scanCount (d2.drop c) +
        (if c + scanCount (d2.drop c) < d2.length ∧
            byteAt d2 (c + scanCount (d2.drop c)) ≠ 0 then 0 else 1)
    rw [hdc, hlen, drop_byte_eq d1 d2 hd (c + scanCount (d2.drop c)) (by omega)]

lemma nib_parseFiles (d1 d2 : List Nat) (hlen : d1.length = d2.length)
    (hd : d1.drop 12 = d2.drop 12) :
    ∀ (fuel : Nat) (ext folder : List Nat) (entries : Entries) (c : Nat),
      12 ≤ c →
      stRel d1 d2 (parseFiles fuel ext folder entries ⟨d1, c⟩)
        (parseFiles fuel ext folder entries ⟨d2, c⟩) := by
  intro fuel
  induction fuel with
  | zero =>
      intro ext folder entries c hc
      exact rfl
  | succ fuel ih =>
      intro ext folder entries c hc
      obtain ⟨hs1, hs2⟩ := nib_readString d1 d2 hlen hd c hc
      have hge1 := readString_cursor_ge (⟨d1, c⟩ : BinaryParser)
      rcases hq1 : (⟨d1, c⟩ : BinaryParser).readString with ⟨fn1, q1⟩
      rcases hq2 : (⟨d2, c⟩ : BinaryParser).readString with ⟨fn2, q2⟩
      rw [hq1, hq2] at hs1 hs2
      rw [hq1] at hge1
      have hfn12 : fn1 = fn2 := hs1
      subst hfn12
      have hcur : q1.cursor = q2.cursor := hs2
      have hq1d : q1.data = d1 := congrArg (fun x => x.2.data) hq1.symm
      have hq2d : q2.data = d2 := congrArg (fun x => x.2.data) hq2.symm
      have hgec : c ≤ q1.cursor := hge1
      simp only [parseFiles, hq1, hq2]
      by_cases hfn : fn1 = []
      · rw [if_pos hfn, if_pos hfn]
        exact ⟨rfl, hq1d, hq2d, hcur, by omega⟩
      · rw [if_neg hfn, if_neg hfn]
        obtain ⟨e1, k1⟩ := q1
        obtain ⟨e2, k2⟩ := q2
        have he1 : d1 = e1 := hq1d.symm
        have he2 : d2 = e2 := hq2d.symm
        have hk : k1 = k2 := hcur
        subst he1
        subst he2
        subst hk
        have hk1 : c ≤ k1 := hgec
        have hrel := nib_readEntry d1 d2 hlen hd k1 (by omega) ext folder fn1
        rcases hre1 : readEntry ext folder fn1 ⟨d1, k1⟩ with e | ⟨m1, r1⟩ <;>
          rcases hre2 : readEntry ext folder fn1 ⟨d2, k1⟩ with e' | ⟨m2, r2⟩ <;>
          rw [hre1, hre2] at hrel
        · simp only [hre1, hre2]
          exact hrel
        · exact hrel.elim
        · exact hrel.elim
        · obtain ⟨hm, hr1d, hr2d, hrc, hr12⟩ := hrel
          simp only [hre1, hre2]
          subst hm
          obtain ⟨f1, g1⟩ := r1
          obtain ⟨f2, g2⟩ := r2
          have hf1 : d1 = f1 := hr1d.symm
          have hf2 : d2 = f2 := hr2d.symm
          have hg : g1 = g2 := hrc
          subst hf1
          subst hf2
          subst hg
          have hg12 : 12 ≤ g1 := hr12
          exact ih ext folder (mapSet entries m1.path m1) g1 hg12

lemma nib_parseFolders (d1 d2 : List Nat) (hlen : d1.length = d2.length)
    (hd : d1.drop 12 = d2.drop 12) :
    ∀ (fuel : Nat) (ext : List Nat) (entries : Entries) (c : Nat),
      12 ≤ c →
      stRel d1 d2 (parseFolders fuel ext entries ⟨d1, c⟩)
        (parseFolders fuel ext entries ⟨d2, c⟩) := by
  intro fuel
  induction fuel with
  | zero =>
      intro ext entries c hc
      exact rfl
  | succ fuel ih =>
      intro ext entries c hc
      obtain ⟨hs1, hs2⟩ := nib_readString d1 d2 hlen hd c hc
      have hge1 := readString_cursor_ge (⟨d1, c⟩ : BinaryParser)
      rcases hq1 : (⟨d1, c⟩ : BinaryParser).readString with ⟨fn1, q1⟩
      rcases hq2 : (⟨d2, c⟩ : BinaryParser).readString with ⟨fn2, q2⟩
      rw [hq1, hq2] at hs1 hs2
      rw [hq1] at hge1
      have hfn12 : fn1 = fn2 := hs1
      subst hfn12
      have hcur : q1.cursor = q2.cursor := hs2
      have hq1d : q1.data = d1 := congrArg (fun x => x.2.data) hq1.symm
      have hq2d : q2.data = d2 := congrArg (fun x => x.2.data) hq2.symm
      have hgec : c ≤ q1.cursor := hge1
      simp only [parseFolders, hq1, hq2]
      by_cases hfn : fn1 = []
      · rw [if_pos hfn, if_pos hfn]
        exact ⟨rfl, hq1d, hq2d, hcur, by omega⟩
      · rw [if_neg hfn, if_neg hfn]
        obtain ⟨e1, k1⟩ := q1
        obtain ⟨e2, k2⟩ := q2
        have he1 : d1 = e1 := hq1d.symm
        have he2 : d2 = e2 := hq2d.symm
        have hk : k1 = k2 := hcur
        subst he1
        subst he2
        subst hk
        have hk1 : c ≤ k1 := hgec
        have hrel := nib_parseFiles d1 d2 hlen hd (fuel + 1) ext fn1 entries k1
          (by omega)
        rcases hpf1 : parseFiles (fuel + 1) ext fn1 entries ⟨d1, k1⟩ with
          e | ⟨en1, r1⟩ <;>
          rcases hpf2 : parseFiles (fuel + 1) ext fn1 entries ⟨d2, k1⟩ with
            e' | ⟨en2, r2⟩ <;>
          rw [hpf1, hpf2] at hrel
        · simp only [hpf1, hpf2]
          exact hrel
        · exact hrel.elim
        · exact hrel.elim
        · obtain ⟨hen, hr1d, hr2d, hrc, hr12⟩ := hrel
          simp only [hpf1, hpf2]
          subst hen
          obtain ⟨f1, g1⟩ := r1
          obtain ⟨f2, g2⟩ := r2
          have hf1 : d1 = f1 := hr1d.symm
          have hf2 : d2 = f2 := hr2d.symm
          have hg : g1 = g2 := hrc
          subst hf1
          subst hf2
          subst hg
          have hg12 : 12 ≤ g1 := hr12
          exact ih ext en1 g1 hg12

lemma nib_parseExts (d1 d2 : List Nat) (hlen : d1.length = d2.length)
    (hd : d1.drop 12 = d2.drop 12) :
    ∀ (fuel : Nat) (entries : Entries) (c : Nat),
      12 ≤ c →
      stRel d1 d2 (parseExts fuel entries ⟨d1, c⟩)
        (parseExts fuel entries ⟨d2, c⟩) := by
  intro fuel
  induction fuel with
  | zero =>
      intro entries c hc
      exact rfl
  | succ fuel ih =>
      intro entries c hc
      obtain ⟨hs1, hs2⟩ := nib_readString d1 d2 hlen hd c hc
      have hge1 := readString_cursor_ge (⟨d1, c⟩ : BinaryParser)
      rcases hq1 : (⟨d1, c⟩ : BinaryParser).readString with ⟨fn1, q1⟩
      rcases hq2 : (⟨d2, c⟩ : BinaryParser).readString with ⟨fn2, q2⟩
      rw [hq1, hq2] at hs1 hs2
      rw [hq1] at hge1
      have hfn12 : fn1 = fn2 := hs1
      subst hfn12
      have hcur : q1.cursor = q2.cursor := hs2
      have hq1d : q1.data = d1 := congrArg (fun x => x.2.data) hq1.symm
      have hq2d : q2.data = d2 := congrArg (fun x => x.2.data) hq2.symm
      have hgec : c ≤ q1.cursor := hge1
      simp only [parseExts, hq1, hq2]
      by_cases hfn : fn1 = []
      · rw [if_pos hfn, if_pos hfn]
        exact ⟨rfl, hq1d, hq2d, hcur, by omega⟩
      · rw [if_neg hfn, if_neg hfn]
        obtain ⟨e1, k1⟩ := q1
        obtain ⟨e2, k2⟩ := q2
        have he1 : d1 = e1 := hq1d.symm
        have he2 : d2 = e2 := hq2d.symm
        have hk : k1 = k2 := hcur
        subst he1
        subst he2
        subst hk
        have hk1 : c ≤ k1 := hgec
        have hrel := nib_parseFolders d1 d2 hlen hd (fuel + 1) fn1 entries k1
          (by omega)
        rcases hpf1 : parseFolders (fuel + 1) fn1 entries ⟨d1, k1⟩ with
          e | ⟨en1, r1⟩ <;>
          rcases hpf2 : parseFolders (fuel + 1) fn1 entries ⟨d2, k1⟩ with
            e' | ⟨en2, r2⟩ <;>
          rw [hpf1, hpf2] at hrel
        · simp only [hpf1, hpf2]
          exact hrel
        · exact hrel.elim
        · exact hrel.elim
        · obtain ⟨hen, hr1d, hr2d, hrc, hr12⟩ := hrel
          simp only [hpf1, hpf2]
          subst hen
          obtain ⟨f1, g1⟩ := r1
          obtain ⟨f2, g2⟩ := r2
          have hf1 : d1 = f1 := hr1d.symm
          have hf2 : d2 = f2 := hr2d.symm
          have hg : g1 = g2 := hrc
          subst hf1
          subst hf2
          subst hg
          have hg12 : 12 ≤ g1 := hr12
          exact ih en1 g1 hg12

/-- Relation between the two runs' header-tail results: same error, or
same section sizes with parsers at the same cursor (≥ 12); the
data offsets (first component) are allowed to differ. -/
def hdRel (d1 d2 : List Nat) :
    Except Err (Nat × Option (Nat × Nat × Nat × Nat) × BinaryParser) →
    Except Err (Nat × Option (Nat × Nat × Nat × Nat) × BinaryParser) → Prop
  | .error a, .error b => a = b
  | .ok (_, s1, q1), .ok (_, s2, q2) =>
      s1 = s2 ∧ q1.data = d1 ∧ q2.data = d2 ∧ q1.cursor = q2.cursor ∧
        12 ≤ q1.cursor
  | _, _ => False

lemma nib_headerTail (d1 d2 : List Nat) (hlen : d1.length = d2.length)
    (hd : d1.drop 12 = d2.drop 12) (version ts1 ts2 c : Nat) (hc : 12 ≤ c) :
    hdRel d1 d2 (parseHeaderTail version ts1 ⟨d1, c⟩)
      (parseHeaderTail version ts2 ⟨d2, c⟩) := by
  unfold parseHeaderTail
  by_cases hv : version = 2
  · rw [if_pos hv, if_pos hv]
    by_cases h1 : c + 4 ≤ d1.length
    case neg =>
      rw [ru32_err d1 c (by omega), step_err, ru32_err d2 c (by omega), step_err]
      exact rfl
    by_cases h2 : c + 4 + 4 ≤ d1.length
    case neg =>
      simp only [ru32_ok d1 c (by omega), ru32_ok d2 c (by omega), step_ok]
      rw [ru32_err d1 (c + 4) (by omega), step_err,
        ru32_err d2 (c + 4) (by omega), step_err]
      exact rfl
    by_cases h3 : c + 4 + 4 + 4 ≤ d1.length
    case neg =>
      simp only [ru32_ok d1 c (by omega), ru32_ok d2 c (by omega),
        ru32_ok d1 (c + 4) (by omega), ru32_ok d2 (c + 4) (by omega), step_ok]
      rw [ru32_err d1 (c + 4 + 4) (by omega), step_err,
        ru32_err d2 (c + 4 + 4) (by omega), step_err]
      exact rfl
    simp only [ru32_ok d1 c (by omega), ru32_ok d2 c (by omega),
      ru32_ok d1 (c + 4) (by omega), ru32_ok d2 (c + 4) (by omega),
      ru32_ok d1 (c + 4 + 4) (by omega), ru32_ok d2 (c + 4 + 4) (by omega),
      step_ok]
    rw [← u32At_eq d1 d2 hd c (by omega), ← u32At_eq d1 d2 hd (c + 4) (by omega),
      ← u32At_eq d1 d2 hd (c + 4 + 4) (by omega)]
    by_cases h48 : u32At d1 (c + 4 + 4) = 48
    · rw [if_pos h48, if_pos h48]
      by_cases h4 : c + 4 + 4 + 4 + 4 ≤ d1.length
      · simp only [ru32_ok d1 (c + 4 + 4 + 4) (by omega),
          ru32_ok d2 (c + 4 + 4 + 4) (by omega), step_ok]
        rw [← u32At_eq d1 d2 hd (c + 4 + 4 + 4) (by omega)]
        exact ⟨rfl, rfl, rfl, rfl, by show 12 ≤ c + 4 + 4 + 4 + 4; omega⟩
      · rw [ru32_err d1 (c + 4 + 4 + 4) (by omega), step_err,
          ru32_err d2 (c + 4 + 4 + 4) (by omega), step_err]
        exact rfl
    · rw [if_neg h48, if_neg h48]
      exact rfl
  · rw [if_neg hv, if_neg hv]
    exact ⟨rfl, rfl, rfl, rfl, by show 12 ≤ c; omega⟩

/-- C9: the entry table produced by the parse does not depend on the
`treeSize` header field — for any two directory buffers of the same
length that agree on every byte outside the u32 `treeSize` field (bytes
8–11), the parses either fail on both buffers or produce identical
entry tables; `treeSize` influences only where the residual data region
begins. -/
theorem treeSize_noninterference (d1 d2 : List Nat)
    (hlen : d1.length = d2.length)
    (hagree : ∀ i, i < 8 ∨ 12 ≤ i → byteAt d1 i = byteAt d2 i) :
    (VPKFile.fromFile d1).map (fun v => v.entries) =
      (VPKFile.fromFile d2).map (fun v => v.entries) := by
  have hd : d1.drop 12 = d2.drop 12 :=
    agree_drop12 d1 d2 hlen (fun i hi => hagree i (Or.inr hi))
  have h04 : ∀ j, j < 8 → byteAt d1 j = byteAt d2 j :=
    fun j hj => hagree j (Or.inl hj)
  unfold VPKFile.fromFile
  by_cases h1 : 4 ≤ d1.length
  case neg =>
    rw [ru32_err d1 0 (by omega), step_err, ru32_err d2 0 (by omega), step_err]
  case pos =>
  simp only [ru32_ok d1 0 (by omega), ru32_ok d2 0 (by omega), step_ok]
  rw [← u32At_eq_of_byte d1 d2 0 (h04 0 (by omega)) (h04 1 (by omega))
    (h04 2 (by omega)) (h04 3 (by omega))]
  by_cases hsig : u32At d1 0 = 0x55aa1234
  case neg =>
    rw [if_neg hsig, if_neg hsig]
  case pos =>
  rw [if_pos hsig, if_pos hsig]
  by_cases h2 : 8 ≤ d1.length
  case neg =>
    rw [ru32_err d1 4 (by omega), step_err, ru32_err d2 4 (by omega), step_err]
  case pos =>
  simp only [ru32_ok d1 4 (by omega), ru32_ok d2 4 (by omega), step_ok]
  rw [← u32At_eq_of_byte d1 d2 4 (h04 4 (by omega)) (h04 5 (by omega))
    (h04 6 (by omega)) (h04 7 (by omega))]
  by_cases hver : u32At d1 4 = 1 ∨ u32At d1 4 = 2
  case neg =>
    rw [if_neg hver, if_neg hver]
  case pos =>
  rw [if_pos hver, if_pos hver]
  by_cases h3 : 12 ≤ d1.length
  case neg =>
    rw [ru32_err d1 8 (by omega), step_err, ru32_err d2 8 (by omega), step_err]
  case pos =>
  simp only [ru32_ok d1 8 (by omega), ru32_ok d2 8 (by omega), step_ok]
  have hht := nib_headerTail d1 d2 hlen hd (u32At d1 4) (u32At d1 8)
    (u32At d2 8) 12 (by omega)
  rcases hh1 : parseHeaderTail (u32At d1 4) (u32At d1 8) ⟨d1, 12⟩ with
    e1 | ⟨off1, secs1, pp1⟩ <;>
    rcases hh2 : parseHeaderTail (u32At d1 4) (u32At d2 8) ⟨d2, 12⟩ with
      e2 | ⟨off2, secs2, pp2⟩ <;>
    rw [hh1, hh2] at hht
  · simp only [hh1, hh2]
    have he : e1 = e2 := hht
    rw [he]
  · exact hht.elim
  · exact hht.elim
  · obtain ⟨hsecs, hp1d, hp2d, hpc, hpc12⟩ := hht
    simp only [hh1, hh2]
    obtain ⟨f1, k1⟩ := pp1
    obtain ⟨f2, k2⟩ := pp2
    have hf1 : d1 = f1 := hp1d.symm
    have hf2 : d2 = f2 := hp2d.symm
    subst hf1
    subst hf2
    have hk : k1 = k2 := hpc
    subst hk
    have hk12 : 12 ≤ k1 := hpc12
    rw [← hlen]
    have hpe := nib_parseExts d1 d2 hlen hd (d1.length + 1) [] k1 hk12
    rcases hpe1 : parseExts (d1.length + 1) [] ⟨d1, k1⟩ with e | ⟨en1, r1⟩ <;>
      rcases hpe2 : parseExts (d1.length + 1) [] ⟨d2, k1⟩ with e' | ⟨en2, r2⟩ <;>
      rw [hpe1, hpe2] at hpe
    · simp only [hpe1, hpe2]
      have he : e = e' := hpe
      rw [he]
    · exact hpe.elim
    · exact hpe.elim
    · obtain ⟨hen, -, -, -, -⟩ := hpe
      simp only [hpe1, hpe2]
      rw [hen]
      rfl

/-- First concrete buffer for the C9 witness: version 1, `treeSize`
0. -/
def c9d1 : List Nat := [0x34, 0x12, 0xAA, 0x55, 1, 0, 0, 0, 0, 0, 0, 0, 0]

/-- Second concrete buffer for the C9 witness: identical to `c9d1`
except `treeSize` is 99. -/
def c9d2 : List Nat := [0x34, 0x12, 0xAA, 0x55, 1, 0, 0, 0, 99, 0, 0, 0, 0]

/-- Witness for C9 at concrete inputs: the two buffers differing only
in `treeSize` have the same parsed entry table. -/
theorem treeSize_noninterference_witness :
    (VPKFile.fromFile c9d1).map (fun v => v.entries) =
      (VPKFile.fromFile c9d2).map (fun v => v.entries) :=
  treeSize_noninterference c9d1 c9d2 rfl (by
    intro i hi
    rcases hi with hi | hi
    · interval_cases i <;> rfl
    · rcases Nat.lt_or_ge i 13 with h13 | h13
      · have hi12 : i = 12 := by omega
        subst hi12
        rfl
      · rw [byteAt, byteAt, List.getD_eq_default _ _ (by simp [c9d1]; omega),
          List.getD_eq_default _ _ (by simp [c9d2]; omega)])

end NodeVpk
